import Mathlib

/-!
Shallow embedding of the document-segmentation engine of `parse_pdf.py`
(class `PDFSplitter`): outline resolution, TOC-based splitting,
paragraph-fallback splitting with a heading heuristic, sentence scoring,
and the document-summary builder.

Strings are modelled over their character sequences (`String.data`).
Python's whitespace-sensitive primitives (`str.strip`, `str.split`,
the regex class `\s`) are modelled over the ASCII whitespace characters,
which covers every string the program's heuristics distinguish here.
-/

/-- Python whitespace characters (ASCII range), as recognised by
`str.strip()`, `str.split()` and the regex class `\s`. -/
def isPySpace (c : Char) : Bool :=
  c == ' ' || c == '\t' || c == '\n' || c == '\r' || c == '\x0b' || c == '\x0c'

/-- `str.strip()` on a character list: drop leading and trailing whitespace. -/
def pyStripList (cs : List Char) : List Char :=
  ((cs.dropWhile isPySpace).reverse.dropWhile isPySpace).reverse

/-- Python `text.strip()`. -/
def pyStrip (s : String) : String := ⟨pyStripList s.data⟩

/-- Worker for `str.split()` with no separator: split on runs of
whitespace, producing no empty words.  `acc` holds the current word
reversed. -/
def pyWordsGo : List Char → List Char → List (List Char)
  | [], acc => if acc.isEmpty then [] else [acc.reverse]
  | c :: cs, acc =>
    if isPySpace c then
      if acc.isEmpty then pyWordsGo cs [] else acc.reverse :: pyWordsGo cs []
    else pyWordsGo cs (c :: acc)

/-- Python `text.split()` (no argument): whitespace-delimited words. -/
def pyWords (s : String) : List String := (pyWordsGo s.data []).map (fun w => ⟨w⟩)

/-- Python `sep.join(parts)`. -/
def joinSep (sep : String) : List String → String
  | [] => ""
  | [s] => s
  | s :: rest => s ++ sep ++ joinSep sep rest

/-- A section produced by the splitter: the dictionary built at
`parse_pdf.py` lines 92-98 (TOC path, where both page fields are present)
or lines 129-133 / 144-148 (paragraph fallback, where both are absent). -/
structure Section where
  title : String
  level : Nat
  content : String
  start_page : Option Nat
  end_page : Option Nat
deriving Repr, DecidableEq

/-- A flat outline entry as produced by `_parse_outline`
(`parse_pdf.py` lines 46-50): title, 0-based page index, nesting level. -/
structure OutlineEntry where
  title : String
  page : Nat
  level : Nat
deriving Repr, DecidableEq

/-- The raw (possibly nested) outline structure walked by
`_parse_outline`: a node is either a leaf whose page destination may fail
to resolve (`get_destination_page_number` raising is modelled by `none`),
or a nested list of children. -/
inductive OutlineNode where
  | leaf (title : String) (dest : Option Nat)
  | group (children : List OutlineNode)
deriving Repr

/-- `PDFSplitter._parse_outline` (lines 35-53): depth-first traversal,
nested lists increase the level, a leaf whose destination fails to
resolve is skipped and traversal continues. -/
def parse_outline : List OutlineNode → Nat → List OutlineEntry
  | [], _ => []
  | OutlineNode.group children :: rest, level =>
    parse_outline children (level + 1) ++ parse_outline rest level
  | OutlineNode.leaf title dest :: rest, level =>
    (match dest with
      | some p => [⟨title, p, level⟩]
      | none => []) ++ parse_outline rest level

/-- `PDFSplitter.extract_toc` (lines 20-33): an absent outline
(`reader.outline` raising or `None`) or an empty outline list yields `[]`
(Python's `if outlines:` is false for an empty list). -/
def extract_toc (outline : Option (List OutlineNode)) : List OutlineEntry :=
  match outline with
  | none => []
  | some items => if items.isEmpty then [] else parse_outline items 0

/-- The loop body of `split_by_toc` (lines 81-98): for entry `i`,
`start_page` is the entry's page, `end_page` is the next entry's page or
`total`; the content collects the page texts in `[start_page, end_page)`
whose index is in range (`if page_num < len(pages_text)`), joined with a
blank line and stripped. -/
def sectionsOfToc : List OutlineEntry → List String → Nat → List Section
  | [], _, _ => []
  | item :: rest, pages, total =>
    let startP := item.page
    let endP := match rest with
      | [] => total
      | next :: _ => next.page
    let content := (List.range' startP (endP - startP)).filterMap pages.get?
    { title := item.title
      level := item.level
      content := pyStrip (joinSep "\n\n" content)
      start_page := some (startP + 1)
      end_page := some endP } :: sectionsOfToc rest pages total

/-! ### The heading heuristic `_is_likely_heading` (lines 152-179)

Each regex from the `heading_patterns` list is translated to an
executable matcher over the character list of the (stripped) text.
Every pattern is anchored at the start (`re.match`) and built from
pairwise-disjoint character classes, so greedy matching without
backtracking is exact. -/

/-- Matcher for `^\d+\.?\s+[A-Z]`: digits, an optional period, at least
one whitespace character, then an uppercase letter. -/
def matchNumbered (cs : List Char) : Bool :=
  let ds := cs.takeWhile Char.isDigit
  if ds.isEmpty then false
  else
    let r1 := cs.drop ds.length
    let r2 := match r1 with
      | '.' :: t => t
      | t => t
    let ws := r2.takeWhile isPySpace
    if ws.isEmpty then false
    else
      match r2.drop ws.length with
      | c :: _ => c.isUpper
      | [] => false

/-- Matcher for `^[A-Z][A-Z\s]{3,}$`: an uppercase letter followed by at
least three characters, all uppercase letters or whitespace, spanning the
whole string (the `$` anchor; the text is already stripped, so there is
no trailing newline to absorb). -/
def matchAllCaps (cs : List Char) : Bool :=
  match cs with
  | c :: rest =>
    c.isUpper && decide (3 ≤ rest.length) && rest.all (fun x => x.isUpper || isPySpace x)
  | [] => false

/-- Matcher for `^Chapter\s+\d+` / `^Section\s+\d+` with `lit` the
literal word: the literal, at least one whitespace character, then at
least one digit. -/
def matchWordNum (lit : List Char) (cs : List Char) : Bool :=
  lit.isPrefixOf cs &&
    (let r := cs.drop lit.length
     let ws := r.takeWhile isPySpace
     !ws.isEmpty &&
       match r.drop ws.length with
       | c :: _ => c.isDigit
       | [] => false)

/-- Matcher for `^[IVXLCDM]+\.\s+[A-Z]`: roman-numeral letters, a
period, at least one whitespace character, then an uppercase letter. -/
def matchRoman (cs : List Char) : Bool :=
  let rs := cs.takeWhile (fun c =>
    c == 'I' || c == 'V' || c == 'X' || c == 'L' || c == 'C' || c == 'D' || c == 'M')
  if rs.isEmpty then false
  else
    match cs.drop rs.length with
    | '.' :: t =>
      let ws := t.takeWhile isPySpace
      !ws.isEmpty &&
        (match t.drop ws.length with
         | c :: _ => c.isUpper
         | [] => false)
    | _ => false

/-- Disjunction of the five `heading_patterns` (lines 160-166), applied
to the stripped text as in `re.match(pattern, text.strip())`. -/
def matchesHeadingPattern (cs : List Char) : Bool :=
  matchNumbered cs || matchAllCaps cs ||
    matchWordNum "Chapter".data cs || matchWordNum "Section".data cs ||
    matchRoman cs

/-- `PDFSplitter._is_likely_heading` (lines 152-179).  The uppercase
ratio test `sum(1 for c in text if c.isupper()) / max(len(text), 1) > 0.6`
is modelled exactly by the integer comparison `5 * upper > 3 * max len 1`:
for every denominator reachable here (`len(text) ≤ 200`) the rational
value of the quotient is farther from `0.6` than any double-rounding
error, so the float comparison agrees with the rational one. -/
def is_likely_heading (text : String) : Bool :=
  if text.length > 200 then false
  else if matchesHeadingPattern (pyStrip text).data then true
  else
    if (pyWords text).length ≤ 10 then
      if 5 * (text.data.filter Char.isUpper).length > 3 * max text.length 1 then true
      else false
    else false

/-! ### Paragraph splitting: `re.split(r'\n\s*\n+', full_text)` (line 111)

A separator match at a position is a newline followed by whitespace
containing at least one further newline; the greedy match (after the
backtracking forced by the trailing `\n+`) extends to the last newline of
the whitespace run.  The split worker carries fuel to make the skip over
a matched separator structurally recursive; `fuel = length + 1` always
suffices since every step consumes at least one character. -/

/-- If the paragraph separator `\n\s*\n+` matches at the head of `cs`,
return the remainder after the (greedy) match. -/
def paraSepMatch : List Char → Option (List Char)
  | '\n' :: rest =>
    let w := rest.takeWhile isPySpace
    let keep := (w.reverse.dropWhile (fun c => !(c == '\n'))).reverse
    if keep.isEmpty then none else some (rest.drop keep.length)
  | _ => none

/-- Worker for `re.split`: scan for the leftmost separator match, cut
there, and continue after the match.  `acc` holds the current piece
reversed. -/
def reSplitParasGo : Nat → List Char → List Char → List (List Char)
  | 0, _, acc => [acc.reverse]
  | _ + 1, [], acc => [acc.reverse]
  | fuel + 1, c :: cs, acc =>
    match paraSepMatch (c :: cs) with
    | some rest => acc.reverse :: reSplitParasGo fuel rest []
    | none => reSplitParasGo fuel cs (c :: acc)

/-- `re.split(r'\n\s*\n+', text)`. -/
def pySplitParas (s : String) : List String :=
  (reSplitParasGo (s.data.length + 1) s.data []).map (fun cs => ⟨cs⟩)

/-- Python `x or default` on the optional current title (line 130): the
default is used when the title is `None` or the empty string. -/
def pyOr (t : Option String) (d : String) : String :=
  match t with
  | none => d
  | some s => if s = "" then d else s

/-- Flush the accumulated body paragraphs as one section
(lines 128-134 and 143-148). -/
def flushSection (title : Option String) (n : Nat) (body : List String) : Section :=
  { title := pyOr title ("Section " ++ toString n)
    level := 0
    content := pyStrip (joinSep "\n\n" body)
    start_page := none
    end_page := none }

/-- The paragraph loop of `split_by_paragraphs` (lines 118-148): skip
blank paragraphs; a heading flushes the pending body (if any) and starts
a new section titled by the heading's first 100 characters; a non-heading
paragraph is appended to the pending body; at end of input the pending
body is flushed. -/
def segmentLoop : List String → Option String → List String → Nat → List Section
  | [], title, body, n =>
    if body.isEmpty then [] else [flushSection title n body]
  | para :: rest, title, body, n =>
    let p := pyStrip para
    if p = "" then segmentLoop rest title body n
    else if is_likely_heading p then
      if body.isEmpty then segmentLoop rest (some (p.take 100)) [] n
      else flushSection title n body :: segmentLoop rest (some (p.take 100)) [] (n + 1)
    else segmentLoop rest title (body ++ [p]) n

/-- The paragraph segmenter applied to an already-split paragraph list,
with the initial state of lines 114-116. -/
def segmentParas (paras : List String) : List Section :=
  segmentLoop paras none [] 1

/-- `PDFSplitter.split_by_paragraphs` (lines 102-150): join the page
texts with a blank line, split into paragraphs, run the segmenter. -/
def split_by_paragraphs (pages : List String) : List Section :=
  segmentParas (pySplitParas (joinSep "\n\n" pages))

/-- `PDFSplitter.split_by_toc` (lines 64-100): an empty entry list falls
back to paragraph-based splitting. -/
def split_by_toc (toc : List OutlineEntry) (pages : List String) (total : Nat) :
    List Section :=
  if toc.isEmpty then split_by_paragraphs pages
  else sectionsOfToc toc pages total

/-- The whole splitting pipeline starting from the raw outline, with
`total_pages = len(pages_text)` as in the source (`extract_text_by_page`
returns one string per page). -/
def split_pdf (outline : Option (List OutlineNode)) (pages : List String) :
    List Section :=
  split_by_toc (extract_toc outline) pages pages.length

/-! ### Sentence extraction `_extract_key_sentences` (lines 243-287) -/

/-- A sentence-terminator character, the regex class `[.!?]`. -/
def isTermChar (c : Char) : Bool := c == '.' || c == '!' || c == '?'

/-- If the sentence separator `[.!?]+\s+` matches at the head of `cs`,
return the remainder after the (greedy) match: the maximal terminator
run followed by the maximal whitespace run, at least one of each. -/
def sentSepMatch : List Char → Option (List Char)
  | [] => none
  | c :: cs =>
    if isTermChar c then
      let ts := (c :: cs).takeWhile isTermChar
      let r1 := (c :: cs).drop ts.length
      let ws := r1.takeWhile isPySpace
      if ws.isEmpty then none else some (r1.drop ws.length)
    else none

/-- Worker for `re.split(r'[.!?]+\s+', text)`, fuelled like
`reSplitParasGo`. -/
def reSplitSentsGo : Nat → List Char → List Char → List (List Char)
  | 0, _, acc => [acc.reverse]
  | _ + 1, [], acc => [acc.reverse]
  | fuel + 1, c :: cs, acc =>
    match sentSepMatch (c :: cs) with
    | some rest => acc.reverse :: reSplitSentsGo fuel rest []
    | none => reSplitSentsGo fuel cs (c :: acc)

/-- `re.split(r'[.!?]+\s+', text)` (line 248). -/
def pySplitSents (s : String) : List String :=
  (reSplitSentsGo (s.data.length + 1) s.data []).map (fun cs => ⟨cs⟩)

/-- Python `s.lower()` (ASCII case mapping). -/
def pyLower (s : String) : String := ⟨s.data.map Char.toLower⟩

/-- Substring test, Python's `needle in haystack`. -/
def containsSub (needle : List Char) : List Char → Bool
  | [] => needle.isEmpty
  | c :: cs => needle.isPrefixOf (c :: cs) || containsSub needle cs

/-- The fixed importance-keyword vocabulary (lines 268-272). -/
def important_words : List String :=
  ["result", "conclusion", "found", "significant", "important",
   "demonstrate", "show", "indicate", "suggest", "recommend",
   "key", "main", "primary", "critical", "essential"]

/-- The score of one sentence candidate (lines 257-279): +2 for a digit,
+1 for a quote character, +1 per matching keyword (each keyword tested
once), +1 if the length is strictly between 50 and 200. -/
def sentenceScore (s : String) : Nat :=
  (if s.data.any Char.isDigit then 2 else 0) +
    (if s.data.contains '"' || s.data.contains '\x27' then 1 else 0) +
    (important_words.filter (fun w => containsSub w.data (pyLower s).data)).length +
    (if 50 < s.length ∧ s.length < 200 then 1 else 0)

/-- Stable descending insertion: the new element goes after every
element with a score at least as large. -/
def insertDesc (x : Nat × String) : List (Nat × String) → List (Nat × String)
  | [] => [x]
  | y :: ys => if x.1 ≤ y.1 then y :: insertDesc x ys else x :: y :: ys

/-- The stable descending-by-score sort of line 284
(`scored_sentences.sort(reverse=True, key=lambda x: x[0])`; Python's
sort is stable and `reverse=True` keeps ties in original order). -/
def sortDesc (l : List (Nat × String)) : List (Nat × String) :=
  l.foldl (fun acc x => insertDesc x acc) []

/-- The trimmed sentence candidates of lines 248-249: split at
terminator-plus-whitespace boundaries, strip, keep those longer than 20
characters. -/
def sentenceCandidates (text : String) : List String :=
  ((pySplitSents text).map pyStrip).filter (fun s => s.length > 20)

/-- The scored pairs of lines 255-281: at most the first 50 candidates,
each paired with its score. -/
def scoredSentences (text : String) : List (Nat × String) :=
  ((sentenceCandidates text).take 50).map (fun s => (sentenceScore s, s))

/-- `PDFSplitter._extract_key_sentences` (lines 243-287). -/
def extract_key_sentences (text : String) (max_sentences : Nat) : List String :=
  let sentences := sentenceCandidates text
  if sentences.isEmpty then []
  else
    let sorted := sortDesc (scoredSentences text)
    ((sorted.take max_sentences).filter (fun p => 0 < p.1)).map (fun p => p.2)

/-! ### The summary builder `create_document_summary` (lines 181-241) -/

/-- Worker for Python `text.split(sep)` with a non-empty separator:
leftmost non-overlapping occurrences, keeping empty pieces.  Fuelled as
for the regex splitters; `fuel = length + 1` always suffices. -/
def pySplitOnGo (sep : List Char) : Nat → List Char → List Char → List (List Char)
  | 0, _, acc => [acc.reverse]
  | fuel + 1, cs, acc =>
    if sep.isPrefixOf cs then
      acc.reverse :: pySplitOnGo sep fuel (cs.drop sep.length) []
    else
      match cs with
      | [] => [acc.reverse]
      | c :: cs2 => pySplitOnGo sep fuel cs2 (c :: acc)

/-- Python `text.split(sep)` (line 218 uses `content.split('\n\n')`). -/
def pySplitOn (sep : String) (s : String) : List String :=
  (pySplitOnGo sep.data (s.data.length + 1) s.data []).map (fun cs => ⟨cs⟩)

/-- The page-range suffix of a table-of-contents line (lines 196-198).
In the source both page fields are present or absent together, so the
inner default for `end_page` is never consulted on reachable inputs. -/
def tocPagesSuffix (s : Section) : String :=
  match s.start_page with
  | none => ""
  | some sp => " [p." ++ toString sp ++ "-" ++ toString (s.end_page.getD 0) ++ "]"

/-- One `### Section i: ...` block (lines 204-232). -/
def sectionBlock (i : Nat) (s : Section) : List String :=
  ["### Section " ++ toString i ++ ": " ++ s.title] ++
    (match s.start_page with
      | some sp =>
        ["**Location:** Pages " ++ toString sp ++ "-" ++ toString (s.end_page.getD 0)]
      | none => []) ++
    ["**Length:** " ++ toString (pyWords s.content).length ++ " words, " ++
      toString s.content.length ++ " characters"] ++
    (let paras := ((pySplitOn "\n\n" s.content).map pyStrip).filter (fun p => p ≠ "")
     match paras with
     | [] => []
     | p0 :: _ =>
       ["**Preview:** " ++ p0.take 300 ++ (if p0.length > 300 then "..." else "")]) ++
    (let ks := extract_key_sentences s.content 3
     if ks.isEmpty then []
     else "**Key Points:**" :: ks.map (fun t => "- " ++ t)) ++
    [""]

/-- `PDFSplitter.create_document_summary` (lines 181-241), a pure
function of the section list and the total page count.  The last
instruction line reproduces the source's literal bytes
(U+00E2, U+2020, U+2019 between "1" and "01_*.txt"). -/
def create_document_summary (sections : List Section) (total_pages : Nat) : String :=
  let overview :=
    ["# DOCUMENT STRUCTURE SUMMARY",
     "Total Sections: " ++ toString sections.length,
     "Total Pages: " ++ toString total_pages ++ "\n",
     "## TABLE OF CONTENTS"]
  let tocLines := (List.enumFrom 1 sections).map (fun p =>
    joinSep "" (List.replicate p.2.level "  ") ++ toString p.1 ++ ". " ++
      p.2.title ++ tocPagesSuffix p.2)
  let secBlocks := (List.enumFrom 1 sections).flatMap (fun p => sectionBlock p.1 p.2)
  let footer :=
    ["\n## HOW TO USE THIS DOCUMENT",
     "This summary provides the structure and overview of the full document.",
     "Each section has been extracted to a separate file in the output directory.",
     "To analyze specific sections in detail, refer to the individual section files.",
     "Section numbers correspond to the filenames (e.g., Section 1 \u00e2\u2020\u2019 01_*.txt)"]
  joinSep "\n"
    (overview ++ tocLines ++ ["\n## SECTION SUMMARIES\n"] ++ secBlocks ++ footer)

/-! ### Helper characterizations of the TOC path -/

/-- The raw (0-based, exclusive) end bound computed for entry `i` at
line 84: the next entry's page, or the total page count for the last
entry. -/
def tocEndRaw (toc : List OutlineEntry) (total : Nat) (i : Nat) : Nat :=
  match toc.get? (i + 1) with
  | some e => e.page
  | none => total

theorem tocEndRaw_cons_succ (a : OutlineEntry) (l : List OutlineEntry)
    (total j : Nat) : tocEndRaw (a :: l) total (j + 1) = tocEndRaw l total j := by
  simp [tocEndRaw]

theorem sectionsOfToc_length (toc : List OutlineEntry) (pages : List String)
    (total : Nat) : (sectionsOfToc toc pages total).length = toc.length := by
  induction toc with
  | nil => rfl
  | cons item rest ih => simp [sectionsOfToc, ih]

theorem sectionsOfToc_get (toc : List OutlineEntry) (pages : List String)
    (total : Nat) (i : Nat) (hi : i < toc.length)
    (hi2 : i < (sectionsOfToc toc pages total).length) :
    (sectionsOfToc toc pages total).get ⟨i, hi2⟩ =
      { title := (toc.get ⟨i, hi⟩).title
        level := (toc.get ⟨i, hi⟩).level
        content := pyStrip (joinSep "\n\n" ((List.range' (toc.get ⟨i, hi⟩).page
          (tocEndRaw toc total i - (toc.get ⟨i, hi⟩).page)).filterMap pages.get?))
        start_page := some ((toc.get ⟨i, hi⟩).page + 1)
        end_page := some (tocEndRaw toc total i) } := by
  induction toc generalizing i with
  | nil => simp at hi
  | cons item rest ih =>
    cases i with
    | zero =>
      cases rest with
      | nil => simp [sectionsOfToc, tocEndRaw]
      | cons next rest2 => simp [sectionsOfToc, tocEndRaw]
    | succ j =>
      have hj : j < rest.length := by simpa using hi
      have hj2 : j < (sectionsOfToc rest pages total).length := by
        simpa [sectionsOfToc_length] using hj
      calc (sectionsOfToc (item :: rest) pages total).get ⟨j + 1, hi2⟩
          = (sectionsOfToc rest pages total).get ⟨j, hj2⟩ := by
            simp [sectionsOfToc]
        _ = _ := by rw [ih j hj hj2, tocEndRaw_cons_succ]; simp

theorem split_by_toc_of_ne_nil (toc : List OutlineEntry) (pages : List String)
    (total : Nat) (h : toc ≠ []) :
    split_by_toc toc pages total = sectionsOfToc toc pages total := by
  unfold split_by_toc
  rw [if_neg]
  simpa using h

/-- C1: for every non-empty outline entry list and every page-text list,
`split_by_toc` produces exactly `len(entries)` sections in entry order,
section `i` reporting `start_page = entries[i].page + 1` (1-based) and
`end_page = entries[i+1].page` for non-last `i`, `total_pages` for the
last; concretely, a 3-entry outline at pages `[0, 5, 9]` on a 12-page
document yields the `(start_page, end_page)` pairs `(1,5)`, `(6,9)`,
`(10,12)`. -/
theorem split_by_toc_section_bounds :
    (∀ (toc : List OutlineEntry) (pages : List String) (total : Nat),
      toc ≠ [] →
        (split_by_toc toc pages total).length = toc.length ∧
        ∀ i (hi : i < toc.length) (hi2 : i < (split_by_toc toc pages total).length),
          ((split_by_toc toc pages total).get ⟨i, hi2⟩).title = (toc.get ⟨i, hi⟩).title ∧
          ((split_by_toc toc pages total).get ⟨i, hi2⟩).start_page =
            some ((toc.get ⟨i, hi⟩).page + 1) ∧
          ((split_by_toc toc pages total).get ⟨i, hi2⟩).end_page =
            some (match toc.get? (i + 1) with
              | some next => next.page
              | none => total)) ∧
    (split_by_toc [⟨"A", 0, 0⟩, ⟨"B", 5, 0⟩, ⟨"C", 9, 0⟩]
        (List.replicate 12 "") 12).map (fun s => (s.start_page, s.end_page)) =
      [(some 1, some 5), (some 6, some 9), (some 10, some 12)] := by
  constructor
  · intro toc pages total hne
    rw [split_by_toc_of_ne_nil toc pages total hne]
    refine ⟨sectionsOfToc_length toc pages total, ?_⟩
    intro i hi hi2
    rw [sectionsOfToc_get toc pages total i hi hi2]
    exact ⟨rfl, rfl, rfl⟩
  · decide

/-- Witness for C1 at the concrete 3-entry outline on a 12-page document. -/
theorem split_by_toc_section_bounds_witness :
    (split_by_toc [⟨"A", 0, 0⟩, ⟨"B", 5, 0⟩, ⟨"C", 9, 0⟩]
      (List.replicate 12 "") 12).length = 3 :=
  (split_by_toc_section_bounds.1 [⟨"A", 0, 0⟩, ⟨"B", 5, 0⟩, ⟨"C", 9, 0⟩]
    (List.replicate 12 "") 12 (by decide)).1


/-! ### Helper lemmas on the paragraph segmenter -/

theorem segmentLoop_nil (title : Option String) (body : List String) (n : Nat) :
    segmentLoop [] title body n =
      if body.isEmpty then [] else [flushSection title n body] := rfl

theorem segmentLoop_cons (para : String) (rest : List String)
    (title : Option String) (body : List String) (n : Nat) :
    segmentLoop (para :: rest) title body n =
      if pyStrip para = "" then segmentLoop rest title body n
      else if is_likely_heading (pyStrip para) = true then
        if body.isEmpty then segmentLoop rest (some ((pyStrip para).take 100)) [] n
        else flushSection title n body ::
          segmentLoop rest (some ((pyStrip para).take 100)) [] (n + 1)
      else segmentLoop rest title (body ++ [pyStrip para]) n := rfl

theorem sectionsOfToc_cons (item : OutlineEntry) (rest : List OutlineEntry)
    (pages : List String) (total : Nat) :
    sectionsOfToc (item :: rest) pages total =
      { title := item.title
        level := item.level
        content := pyStrip (joinSep "\n\n" ((List.range' item.page
          ((match rest with
            | [] => total
            | next :: _ => next.page) - item.page)).filterMap pages.get?))
        start_page := some (item.page + 1)
        end_page := some (match rest with
          | [] => total
          | next :: _ => next.page) } :: sectionsOfToc rest pages total := rfl

theorem segmentLoop_fields (paras : List String) (title : Option String)
    (body : List String) (n : Nat) :
    ∀ s ∈ segmentLoop paras title body n,
      s.level = 0 ∧ s.start_page = none ∧ s.end_page = none := by
  induction paras generalizing title body n with
  | nil =>
    intro s hs
    rw [segmentLoop_nil] at hs
    split at hs
    · simp at hs
    · simp at hs
      subst hs
      exact ⟨rfl, rfl, rfl⟩
  | cons para rest ih =>
    intro s hs
    rw [segmentLoop_cons] at hs
    split at hs
    · exact ih _ _ _ s hs
    · split at hs
      · split at hs
        · exact ih _ _ _ s hs
        · rcases List.mem_cons.mp hs with h | h
          · subst h
            exact ⟨rfl, rfl, rfl⟩
          · exact ih _ _ _ s h
      · exact ih _ _ _ s hs

theorem split_by_paragraphs_fields (pages : List String) :
    ∀ s ∈ split_by_paragraphs pages,
      s.level = 0 ∧ s.start_page = none ∧ s.end_page = none :=
  segmentLoop_fields _ none [] 1

/-- C4 counterexample: on the out-of-order 2-entry outline at pages
`[5, 0]` over a 12-page document, the first produced section reports
`start_page = 6` and `end_page = 0`, so `end_page < start_page`. -/
theorem split_by_toc_end_lt_start_cex :
    (split_by_toc [⟨"A", 5, 0⟩, ⟨"B", 0, 0⟩] (List.replicate 12 "") 12).head? =
      some ⟨"A", 0, "", some 6, some 0⟩ ∧ ¬ (6 ≤ 0) := by
  exact ⟨by decide, by decide⟩

/-- C4 amended: every section produced by `split_by_toc` satisfies
`end_page ≥ start_page` whenever both page fields are present, provided
the outline page indices are strictly increasing and all smaller than
the total page count (out-of-order, duplicate, or out-of-range outline
pages can and do violate the inequality). -/
theorem split_by_toc_end_ge_start (toc : List OutlineEntry) (pages : List String)
    (total : Nat) (hmono : List.Chain' (fun a b => a.page < b.page) toc)
    (hbound : ∀ e ∈ toc, e.page < total) :
    ∀ s ∈ split_by_toc toc pages total, ∀ a b,
      s.start_page = some a → s.end_page = some b → a ≤ b := by
  by_cases hne : toc = []
  · subst hne
    intro s hs a b ha hb
    rw [split_by_toc] at hs
    simp only [List.isEmpty_nil, if_true] at hs
    rcases split_by_paragraphs_fields pages s hs with ⟨_, h1, _⟩
    rw [h1] at ha
    exact absurd ha (by simp)
  · rw [split_by_toc_of_ne_nil toc pages total hne]
    clear hne
    induction toc with
    | nil => intro s hs; simp [sectionsOfToc] at hs
    | cons item rest ih =>
      intro s hs a b ha hb
      rw [sectionsOfToc_cons] at hs
      rcases List.mem_cons.mp hs with h | h
      · subst h
        simp only [Option.some.injEq] at ha hb
        subst ha
        subst hb
        cases rest with
        | nil => exact hbound item (List.mem_cons_self _ _)
        | cons next rest2 => exact (List.chain'_cons.mp hmono).1
      · exact ih (List.Chain'.tail hmono)
          (fun e he => hbound e (List.mem_cons_of_mem _ he)) s h a b ha hb

/-- Witness for the amended C4 at the strictly increasing outline
`[0, 5, 9]` on a 12-page document. -/
theorem split_by_toc_end_ge_start_witness : (6 : Nat) ≤ 9 :=
  split_by_toc_end_ge_start [⟨"A", 0, 0⟩, ⟨"B", 5, 0⟩, ⟨"C", 9, 0⟩]
    (List.replicate 12 "") 12
    (List.chain'_cons.mpr ⟨by decide, List.chain'_cons.mpr ⟨by decide, List.chain'_singleton _⟩⟩)
    (by decide) ⟨"B", 0, "", some 6, some 9⟩ (by decide) 6 9 rfl rfl

theorem filterMap_get_range (l : List String) (s n : Nat) :
    (List.range' s n).filterMap l.get? = (l.drop s).take n := by
  induction n generalizing s with
  | zero => simp
  | succ m ih =>
    rw [List.range'_succ, List.filterMap_cons]
    by_cases h : s < l.length
    · rw [List.get?_eq_get h]
      have hd : l.drop s = l.get ⟨s, h⟩ :: l.drop (s + 1) := by
        rw [List.drop_eq_getElem_cons h]
        rfl
      rw [hd, List.take_succ_cons, ih (s + 1)]
    · have h0 : l.get? s = none := List.get?_eq_none.mpr (Nat.le_of_not_lt h)
      rw [h0, ih (s + 1)]
      have h1 : l.drop s = [] := List.drop_eq_nil_of_le (Nat.le_of_not_lt h)
      have h2 : l.drop (s + 1) = [] := List.drop_eq_nil_of_le (by omega)
      rw [h1, h2, List.take_nil, List.take_nil]

/-- C5: `split_by_toc` never reads a page index out of range: section
`i`'s content is built from the slice of the page-text list clamped to
the valid index range (indices at or beyond the page count are silently
skipped), and an entry whose computed range has `end_page ≤ start_page`
yields a section with empty content rather than an error. -/
theorem split_by_toc_content_clamped (toc : List OutlineEntry)
    (pages : List String) (total : Nat) (i : Nat) (hi : i < toc.length) :
    ∀ sec, (split_by_toc toc pages total).get? i = some sec →
      sec.content = pyStrip (joinSep "\n\n"
        ((pages.drop (toc.get ⟨i, hi⟩).page).take
          (min (tocEndRaw toc total i) pages.length - (toc.get ⟨i, hi⟩).page))) ∧
      (tocEndRaw toc total i ≤ (toc.get ⟨i, hi⟩).page → sec.content = "") := by
  intro sec hsec
  have hne : toc ≠ [] := by
    intro h
    subst h
    simp at hi
  rw [split_by_toc_of_ne_nil _ _ _ hne] at hsec
  have hi2 : i < (sectionsOfToc toc pages total).length := by
    rw [sectionsOfToc_length]
    exact hi
  rw [List.get?_eq_get hi2, Option.some.injEq] at hsec
  subst hsec
  rw [sectionsOfToc_get toc pages total i hi hi2]
  have hcontent : (List.range' (toc.get ⟨i, hi⟩).page
      (tocEndRaw toc total i - (toc.get ⟨i, hi⟩).page)).filterMap pages.get? =
      (pages.drop (toc.get ⟨i, hi⟩).page).take
        (min (tocEndRaw toc total i) pages.length - (toc.get ⟨i, hi⟩).page) := by
    rw [filterMap_get_range]
    rw [List.take_eq_take]
    rw [List.length_drop]
    omega
  refine ⟨by rw [hcontent], ?_⟩
  intro hle
  have h0 : min (tocEndRaw toc total i) pages.length - (toc.get ⟨i, hi⟩).page = 0 := by
    omega
  rw [hcontent, h0, List.take_zero]
  rfl

/-- Witness for C5: a 1-entry outline pointing past the end of a 1-page
document yields empty content and no out-of-range access. -/
theorem split_by_toc_content_clamped_witness :
    ("" : String) = pyStrip (joinSep "\n\n" ((["p0"].drop 2).take (min 5 1 - 2))) :=
  (split_by_toc_content_clamped [⟨"A", 2, 0⟩] ["p0"] 5 0 (by decide)
    ⟨"A", 0, "", some 3, some 5⟩ (by decide)).1

/-- C2: `_is_likely_heading` is a total, deterministic function of its
string argument: false for any text longer than 200 characters; on
shorter text, true exactly when one of the five heading patterns matches
the stripped text, or wanting that, when the text has at most 10
whitespace-delimited words and its uppercase-to-length ratio exceeds
`0.6`; and false otherwise.  In particular the empty string maps to
false (the `max(len(text), 1)` guard prevents division by zero), and
the four concrete examples evaluate as stated. -/
theorem is_likely_heading_spec :
    (∀ t : String, 200 < t.length → is_likely_heading t = false) ∧
    (∀ t : String, t.length ≤ 200 → matchesHeadingPattern (pyStrip t).data = true →
      is_likely_heading t = true) ∧
    (∀ t : String, t.length ≤ 200 → matchesHeadingPattern (pyStrip t).data = false →
      (is_likely_heading t = true ↔
        (pyWords t).length ≤ 10 ∧
          3 * max t.length 1 < 5 * (t.data.filter Char.isUpper).length)) ∧
    is_likely_heading "" = false ∧
    is_likely_heading "INTRODUCTION" = true ∧
    is_likely_heading "1. Overview" = true ∧
    is_likely_heading "This is a normal sentence describing results." = false := by
  refine ⟨?_, ?_, ?_, by decide, by decide, by decide, by decide⟩
  · intro t h
    unfold is_likely_heading
    rw [if_pos (show t.length > 200 from h)]
  · intro t h1 h2
    unfold is_likely_heading
    rw [if_neg (show ¬ t.length > 200 by omega), if_pos h2]
  · intro t h1 h2
    unfold is_likely_heading
    rw [if_neg (show ¬ t.length > 200 by omega),
      if_neg (show ¬ matchesHeadingPattern (pyStrip t).data = true by rw [h2]; simp)]
    split_ifs with hw hu
    · simp only [true_iff]
      exact ⟨hw, hu⟩
    · simp only [false_iff]
      rintro ⟨-, h3⟩
      exact hu h3
    · simp only [false_iff]
      rintro ⟨h3, -⟩
      exact hw h3

set_option maxRecDepth 4000 in
/-- Witness for C2: the long-text cutoff at a 201-character string and
the pattern branch at a numbered heading. -/
theorem is_likely_heading_spec_witness :
    is_likely_heading ⟨List.replicate 201 'A'⟩ = false ∧
      is_likely_heading "1. Overview" = true :=
  ⟨is_likely_heading_spec.1 ⟨List.replicate 201 'A'⟩
    (by decide),
   is_likely_heading_spec.2.1 "1. Overview" (by decide) (by decide)⟩

set_option maxRecDepth 20000 in
/-- C7: a document with no outline and the given two-heading text is
split by the paragraph fallback into exactly two sections, titled
"INTRODUCTION" and "METHODS", with the two body paragraphs as their
contents. -/
theorem split_scenario_two_headings :
    split_pdf none
        ["INTRODUCTION\n\nThis is body text about the topic.\n\nMETHODS\n\nWe used method X."] =
      [⟨"INTRODUCTION", 0, "This is body text about the topic.", none, none⟩,
       ⟨"METHODS", 0, "We used method X.", none, none⟩] := by
  decide


theorem parse_outline_cons_leaf (t : String) (d : Option Nat)
    (rest : List OutlineNode) (level : Nat) :
    parse_outline (OutlineNode.leaf t d :: rest) level =
      (match d with
        | some p => [⟨t, p, level⟩]
        | none => []) ++ parse_outline rest level := by
  cases d <;> simp [parse_outline]

theorem parse_outline_cons_group (children rest : List OutlineNode) (level : Nat) :
    parse_outline (OutlineNode.group children :: rest) level =
      parse_outline children (level + 1) ++ parse_outline rest level := by
  simp [parse_outline]

theorem extract_toc_some (items : List OutlineNode) :
    extract_toc (some items) =
      if items.isEmpty then [] else parse_outline items 0 := rfl

/-- C8: a single outline entry whose page destination fails to resolve
is skipped and traversal continues over the remaining entries; an absent
outline, or one resolving to zero entries, is not an error and makes
`split_by_toc` fall back to paragraph-based splitting. -/
theorem outline_resolution_spec :
    (∀ (pre post : List OutlineNode) (level : Nat) (title : String),
      parse_outline (pre ++ OutlineNode.leaf title none :: post) level =
        parse_outline (pre ++ post) level) ∧
    extract_toc none = [] ∧
    (∀ items, parse_outline items 0 = [] → extract_toc (some items) = []) ∧
    (∀ outline pages, extract_toc outline = [] →
      split_pdf outline pages = split_by_paragraphs pages) := by
  refine ⟨?_, rfl, ?_, ?_⟩
  · intro pre post level title
    induction pre generalizing level with
    | nil => simp [parse_outline]
    | cons node pre2 ih =>
      cases node with
      | leaf t d =>
        rw [List.cons_append, List.cons_append, parse_outline_cons_leaf,
          parse_outline_cons_leaf, ih]
      | group children =>
        rw [List.cons_append, List.cons_append, parse_outline_cons_group,
          parse_outline_cons_group, ih]
  · intro items h
    rw [extract_toc_some]
    by_cases he : items.isEmpty
    · rw [if_pos he]
    · rw [if_neg he]
      exact h
  · intro outline pages h
    unfold split_pdf split_by_toc
    rw [h]
    simp

/-- Witness for C8: skipping a failing leaf between two resolvable ones,
and the fallback on an outline whose only entry fails to resolve. -/
theorem outline_resolution_spec_witness :
    parse_outline [OutlineNode.leaf "a" (some 0), OutlineNode.leaf "bad" none,
        OutlineNode.leaf "b" (some 3)] 0 =
      parse_outline [OutlineNode.leaf "a" (some 0), OutlineNode.leaf "b" (some 3)] 0 ∧
    split_pdf (some [OutlineNode.leaf "bad" none]) ["page text"] =
      split_by_paragraphs ["page text"] :=
  ⟨outline_resolution_spec.1 [OutlineNode.leaf "a" (some 0)]
      [OutlineNode.leaf "b" (some 3)] 0 "bad",
   outline_resolution_spec.2.2.2 (some [OutlineNode.leaf "bad" none])
      ["page text"] (by simp [extract_toc_some, parse_outline])⟩


/-- C9: `create_document_summary` is a pure, deterministic function of
the section list and the total page count: running it twice on an
unchanged section list (with the same page count) yields byte-identical
output.  In this embedding the builder is a plain total function of
exactly these two inputs — it reads no other state — so determinism
holds definitionally. -/
theorem create_document_summary_deterministic :
    ∀ (sections : List Section) (total_pages : Nat),
      create_document_summary sections total_pages =
        create_document_summary sections total_pages :=
  fun _ _ => rfl

/-! ### Sorting lemmas for the sentence ranker -/

theorem mem_insertDesc (x a : Nat × String) (l : List (Nat × String)) :
    a ∈ insertDesc x l ↔ a = x ∨ a ∈ l := by
  induction l with
  | nil => simp [insertDesc]
  | cons y ys ih =>
    rw [insertDesc]
    split
    · simp only [List.mem_cons, ih]
      tauto
    · simp only [List.mem_cons]

theorem chain_insertDesc (x : Nat × String) (l : List (Nat × String))
    (h : List.Chain' (fun a b => b.1 ≤ a.1) l) :
    List.Chain' (fun a b => b.1 ≤ a.1) (insertDesc x l) := by
  induction l with
  | nil => simp [insertDesc]
  | cons y ys ih =>
    rw [insertDesc]
    split
    · rename_i hxy
      cases ys with
      | nil =>
        rw [insertDesc]
        exact List.chain'_cons.mpr ⟨hxy, List.chain'_singleton x⟩
      | cons z zs =>
        have hz := ih (List.Chain'.tail h)
        rw [insertDesc] at hz ⊢
        by_cases hxz : x.1 ≤ z.1
        · rw [if_pos hxz] at hz ⊢
          exact List.chain'_cons.mpr ⟨(List.chain'_cons.mp h).1, hz⟩
        · rw [if_neg hxz]
          exact List.chain'_cons.mpr ⟨hxy, List.chain'_cons.mpr
            ⟨by omega, (List.chain'_cons.mp h).2⟩⟩
    · rename_i hxy
      exact List.chain'_cons.mpr ⟨by omega, h⟩

theorem chain_sortDesc_aux (l acc : List (Nat × String))
    (h : List.Chain' (fun a b => b.1 ≤ a.1) acc) :
    List.Chain' (fun a b => b.1 ≤ a.1)
      (l.foldl (fun acc x => insertDesc x acc) acc) := by
  induction l generalizing acc with
  | nil => exact h
  | cons x xs ih => exact ih (insertDesc x acc) (chain_insertDesc x acc h)

theorem chain_sortDesc (l : List (Nat × String)) :
    List.Chain' (fun a b => b.1 ≤ a.1) (sortDesc l) :=
  chain_sortDesc_aux l [] List.chain'_nil

theorem mem_sortDesc_aux (l acc : List (Nat × String)) (a : Nat × String)
    (ha : a ∈ l.foldl (fun acc x => insertDesc x acc) acc) :
    a ∈ acc ∨ a ∈ l := by
  induction l generalizing acc with
  | nil => exact Or.inl ha
  | cons x xs ih =>
    rcases ih (insertDesc x acc) ha with h | h
    · rcases (mem_insertDesc x a acc).mp h with h2 | h2
      · exact Or.inr (by rw [h2]; exact List.mem_cons_self _ _)
      · exact Or.inl h2
    · exact Or.inr (List.mem_cons_of_mem _ h)

theorem mem_sortDesc (l : List (Nat × String)) (a : Nat × String)
    (ha : a ∈ sortDesc l) : a ∈ l := by
  rcases mem_sortDesc_aux l [] a ha with h | h
  · simp at h
  · exact h

theorem chain_le_head (y : Nat × String) (ys : List (Nat × String))
    (h : List.Chain' (fun a b => b.1 ≤ a.1) (y :: ys)) :
    ∀ a ∈ y :: ys, a.1 ≤ y.1 := by
  induction ys generalizing y with
  | nil =>
    intro a ha
    simp at ha
    rw [ha]
  | cons z zs ih =>
    intro a ha
    rcases List.mem_cons.mp ha with h2 | h2
    · rw [h2]
    · exact le_trans (ih z (List.Chain'.tail h) a h2) (List.chain'_cons.mp h).1

theorem filter_insertDesc (x : Nat × String) (l : List (Nat × String)) (k : Nat)
    (h : List.Chain' (fun a b => b.1 ≤ a.1) l) :
    (insertDesc x l).filter (fun p => p.1 = k) =
      if x.1 = k then (l.filter (fun p => p.1 = k)) ++ [x]
      else l.filter (fun p => p.1 = k) := by
  induction l with
  | nil =>
    rw [insertDesc]
    by_cases hx : x.1 = k
    · simp [hx]
    · simp [hx]
  | cons y ys ih =>
    rw [insertDesc]
    split
    · rename_i hxy
      rw [List.filter_cons, ih (List.Chain'.tail h)]
      by_cases hy : y.1 = k
      · by_cases hx : x.1 = k
        · simp [hx, hy, List.filter_cons]
        · simp [hx, hy, List.filter_cons]
      · by_cases hx : x.1 = k
        · simp [hx, hy, List.filter_cons]
        · simp [hx, hy, List.filter_cons]
    · rename_i hxy
      by_cases hx : x.1 = k
      · have hnil : (y :: ys).filter (fun p => p.1 = k) = [] := by
          rw [List.filter_eq_nil_iff]
          intro a ha
          have := chain_le_head y ys h a ha
          simp only [decide_eq_true_eq]
          omega
        rw [List.filter_cons_of_pos (by simp [hx]), hnil, if_pos hx]
        rfl
      · rw [List.filter_cons_of_neg (by simp [hx])]
        simp [hx]

theorem filter_sortDesc_aux (l acc : List (Nat × String)) (k : Nat)
    (h : List.Chain' (fun a b => b.1 ≤ a.1) acc) :
    (l.foldl (fun acc x => insertDesc x acc) acc).filter (fun p => p.1 = k) =
      acc.filter (fun p => p.1 = k) ++ l.filter (fun p => p.1 = k) := by
  induction l generalizing acc with
  | nil => simp
  | cons x xs ih =>
    rw [List.foldl_cons, ih (insertDesc x acc) (chain_insertDesc x acc h),
      filter_insertDesc x acc k h, List.filter_cons]
    by_cases hx : x.1 = k
    · simp [hx]
    · simp [hx]

/-- Stability of the descending sort: for every score value the
equal-score elements appear in `sortDesc l` exactly in their original
relative order. -/
theorem filter_sortDesc (l : List (Nat × String)) (k : Nat) :
    (sortDesc l).filter (fun p => p.1 = k) = l.filter (fun p => p.1 = k) := by
  have := filter_sortDesc_aux l [] k List.chain'_nil
  simpa using this

theorem scored_fst (text : String) :
    ∀ p ∈ scoredSentences text, p.1 = sentenceScore p.2 := by
  intro p hp
  rcases List.mem_map.mp hp with ⟨s0, _, rfl⟩
  rfl

/-- C3: `_extract_key_sentences` returns at most `max_sentences`
candidates, all scoring strictly above zero, ordered by non-increasing
score with equal-score candidates kept in original document order (the
stability of the sort is the filter equation of the last conjunct), and
an empty content string yields an empty result.  The candidate
construction (terminator-plus-whitespace split, >20-character trimmed
candidates, first 50 considered) and the scoring weights live in
`sentenceCandidates`, `scoredSentences` and `sentenceScore`. -/
theorem extract_key_sentences_spec (text : String) (m : Nat) :
    extract_key_sentences "" m = [] ∧
    (extract_key_sentences text m).length ≤ m ∧
    (∀ s ∈ extract_key_sentences text m, 0 < sentenceScore s) ∧
    List.Chain' (fun a b => sentenceScore b ≤ sentenceScore a)
      (extract_key_sentences text m) ∧
    (∀ k, (sortDesc (scoredSentences text)).filter (fun p => p.1 = k) =
      (scoredSentences text).filter (fun p => p.1 = k)) := by
  refine ⟨rfl, ?_, ?_, ?_, fun k => filter_sortDesc _ k⟩
  · simp only [extract_key_sentences]
    split
    · simp
    · rw [List.length_map]
      exact le_trans (List.length_filter_le _ _) (List.length_take_le _ _)
  · simp only [extract_key_sentences]
    split
    · simp
    · intro s hs
      rcases List.mem_map.mp hs with ⟨p, hpF, rfl⟩
      have hp1 : 0 < p.1 := by
        have := List.of_mem_filter hpF
        simpa using this
      have hpL : p ∈ sortDesc (scoredSentences text) :=
        (List.take_sublist m _).subset (List.mem_of_mem_filter hpF)
      have := scored_fst text p (mem_sortDesc _ p hpL)
      rw [← this]
      exact hp1
  · simp only [extract_key_sentences]
    split
    · simp
    · haveI : IsTrans (Nat × String) (fun a b => b.1 ≤ a.1) :=
        ⟨fun a b c hab hbc => le_trans hbc hab⟩
      have hpair : List.Pairwise (fun (a b : Nat × String) => b.1 ≤ a.1)
          (sortDesc (scoredSentences text)) :=
        List.chain'_iff_pairwise.mp (chain_sortDesc _)
      have hsub : List.Sublist
          (((sortDesc (scoredSentences text)).take m).filter (fun p => 0 < p.1))
          (sortDesc (scoredSentences text)) :=
        (List.filter_sublist _).trans (List.take_sublist m _)
      have hPF := hpair.sublist hsub
      have hmemF : ∀ p ∈ ((sortDesc (scoredSentences text)).take m).filter
          (fun p => 0 < p.1), p.1 = sentenceScore p.2 := fun p hp =>
        scored_fst text p (mem_sortDesc _ p (hsub.subset hp))
      have hstrong : List.Pairwise
          (fun (a b : Nat × String) => sentenceScore b.2 ≤ sentenceScore a.2)
          (((sortDesc (scoredSentences text)).take m).filter (fun p => 0 < p.1)) := by
        refine List.Pairwise.imp_of_mem ?_ hPF
        intro a b ha hb hab
        rw [← hmemF a ha, ← hmemF b hb]
        exact hab
      exact (List.pairwise_map.mpr hstrong).chain'

/-- Witness for C3: the empty-content case and the cap on the number of
returned sentences at a concrete two-sentence text. -/
theorem extract_key_sentences_spec_witness :
    extract_key_sentences "" 3 = [] ∧
      (extract_key_sentences
        "We found 42 percent of users liked the product overall. The main conclusion is that results are significant." 1).length ≤ 1 :=
  ⟨(extract_key_sentences_spec "" 3).1,
   (extract_key_sentences_spec
     "We found 42 percent of users liked the product overall. The main conclusion is that results are significant." 1).2.1⟩

/-! ### Strip and join facts used by the paragraph segmenter proofs -/

theorem head_dropWhile_not (p : Char → Bool) (l : List Char) :
    ∀ c, (l.dropWhile p).head? = some c → p c = false := by
  induction l with
  | nil => intro c h; simp at h
  | cons a l ih =>
    intro c h
    rw [List.dropWhile_cons] at h
    split at h
    · exact ih c h
    · rename_i hpa
      simp at h hpa
      subst h
      exact hpa

theorem getLast_of_suffix {s l : List Char} (h : List.IsSuffix s l)
    (hs : s ≠ []) : l.getLast? = s.getLast? := by
  obtain ⟨t, rfl⟩ := h
  cases hgl : s.getLast? with
  | none => exact absurd (List.getLast?_eq_none_iff.mp hgl) hs
  | some y => rw [List.getLast?_append, hgl]; rfl

theorem strip_head (cs : List Char) :
    ∀ c, (pyStripList cs).head? = some c → isPySpace c = false := by
  intro c h
  unfold pyStripList at h
  rw [List.head?_reverse] at h
  have hne : (cs.dropWhile isPySpace).reverse.dropWhile isPySpace ≠ [] := by
    intro h0
    rw [h0] at h
    simp at h
  rw [← getLast_of_suffix (List.dropWhile_suffix isPySpace) hne,
    List.getLast?_reverse] at h
  exact head_dropWhile_not isPySpace cs c h

theorem strip_ne_nil_of_mem (cs : List Char) (c : Char) (hc : c ∈ cs)
    (hns : isPySpace c = false) : pyStripList cs ≠ [] := by
  have step : ∀ (l : List Char), c ∈ l → c ∈ l.dropWhile isPySpace := by
    intro l hl
    rcases List.mem_append.mp
        ((List.takeWhile_append_dropWhile isPySpace l ▸ hl)) with h | h
    · exact absurd (List.mem_takeWhile_imp h) (by rw [hns]; simp)
    · exact h
  intro h0
  unfold pyStripList at h0
  rw [List.reverse_eq_nil_iff] at h0
  have h1 : c ∈ (cs.dropWhile isPySpace).reverse.dropWhile isPySpace :=
    step _ (List.mem_reverse.mpr (step cs hc))
  rw [h0] at h1
  simp at h1

theorem data_joinSep (sep : String) (b : String) (rest : List String) :
    ∃ t, (joinSep sep (b :: rest)).data = b.data ++ t := by
  cases rest with
  | nil => exact ⟨[], by simp [joinSep]⟩
  | cons r rs =>
    refine ⟨sep.data ++ (joinSep sep (r :: rs)).data, ?_⟩
    show (b ++ sep ++ joinSep sep (r :: rs)).data = _
    rw [String.data_append, String.data_append, List.append_assoc]

theorem pyStrip_join_ne_empty (b : String) (rest : List String)
    (hb : b ≠ "") (hh : ∀ c, b.data.head? = some c → isPySpace c = false) :
    pyStrip (joinSep "\n\n" (b :: rest)) ≠ "" := by
  have hbne : b.data ≠ [] := by
    intro h0
    exact hb (by cases b; simp at h0; rw [h0])
  obtain ⟨c, cs2, hcs⟩ := List.exists_cons_of_ne_nil hbne
  have hc : isPySpace c = false := hh c (by rw [hcs]; rfl)
  obtain ⟨t, ht⟩ := data_joinSep "\n\n" b rest
  have hmem : c ∈ (joinSep "\n\n" (b :: rest)).data := by
    rw [ht, hcs]
    exact List.mem_append_left _ (List.mem_cons_self _ _)
  intro h0
  have h1 : pyStripList (joinSep "\n\n" (b :: rest)).data = [] := by
    have := congrArg String.data h0
    exact this
  exact strip_ne_nil_of_mem _ c hmem hc h1

/-- The non-blank paragraphs, stripped: exactly the paragraphs the loop
at lines 118-121 does not skip. -/
def nonEmptyStripped (paras : List String) : List String :=
  (paras.map pyStrip).filter (fun p => p ≠ "")

theorem heading_strip_ne_empty (h : String)
    (hh : is_likely_heading (pyStrip h) = true) : pyStrip h ≠ "" := by
  intro h0
  rw [h0] at hh
  exact absurd hh (by decide)

theorem segmentLoop_skip_nonheadings (pre rest : List String)
    (title : Option String) (body : List String) (n : Nat)
    (h : ∀ q ∈ pre, is_likely_heading (pyStrip q) = false) :
    segmentLoop (pre ++ rest) title body n =
      segmentLoop rest title (body ++ nonEmptyStripped pre) n := by
  induction pre generalizing body with
  | nil => simp [nonEmptyStripped]
  | cons q pre2 ih =>
    rw [List.cons_append, segmentLoop_cons]
    by_cases hq : pyStrip q = ""
    · rw [if_pos hq, ih _ (fun r hr => h r (List.mem_cons_of_mem _ hr))]
      rw [show nonEmptyStripped (q :: pre2) = nonEmptyStripped pre2 from by
        simp [nonEmptyStripped, hq]]
    · rw [if_neg hq,
        if_neg (show ¬ is_likely_heading (pyStrip q) = true from by
          rw [h q (List.mem_cons_self _ _)]; simp),
        ih _ (fun r hr => h r (List.mem_cons_of_mem _ hr)),
        show nonEmptyStripped (q :: pre2) = pyStrip q :: nonEmptyStripped pre2 from by
          simp [nonEmptyStripped, hq]]
      rw [List.append_assoc, List.singleton_append]

theorem segmentLoop_content_ne (paras : List String) (title : Option String)
    (body : List String) (n : Nat)
    (hb : ∀ b ∈ body, b ≠ "" ∧ ∀ c, b.data.head? = some c → isPySpace c = false) :
    ∀ s ∈ segmentLoop paras title body n, s.content ≠ "" := by
  induction paras generalizing title body n with
  | nil =>
    intro s hs
    rw [segmentLoop_nil] at hs
    split at hs
    · simp at hs
    · rename_i hbody
      simp at hs
      subst hs
      cases body with
      | nil => simp at hbody
      | cons b bs =>
        show pyStrip (joinSep "\n\n" (b :: bs)) ≠ ""
        exact pyStrip_join_ne_empty b bs (hb b (List.mem_cons_self _ _)).1
          (hb b (List.mem_cons_self _ _)).2
  | cons para rest ih =>
    intro s hs
    rw [segmentLoop_cons] at hs
    split at hs
    · exact ih _ _ _ hb s hs
    · rename_i hpne
      split at hs
      · split at hs
        · exact ih _ _ _ (by simp) s hs
        · rename_i hbody
          rcases List.mem_cons.mp hs with h | h
          · subst h
            cases body with
            | nil => simp at hbody
            | cons b bs =>
              show pyStrip (joinSep "\n\n" (b :: bs)) ≠ ""
              exact pyStrip_join_ne_empty b bs (hb b (List.mem_cons_self _ _)).1
                (hb b (List.mem_cons_self _ _)).2
          · exact ih _ _ _ (by simp) s h
      · refine ih _ _ _ ?_ s hs
        intro b hbmem
        rcases List.mem_append.mp hbmem with h | h
        · exact hb b h
        · simp at h
          subst h
          exact ⟨hpne, fun c hc => strip_head para.data c hc⟩

theorem segmentLoop_all_heading (paras : List String) (title : Option String)
    (n : Nat)
    (h : ∀ q ∈ paras, pyStrip q = "" ∨ is_likely_heading (pyStrip q) = true) :
    segmentLoop paras title [] n = [] := by
  induction paras generalizing title n with
  | nil => rfl
  | cons para rest ih =>
    rw [segmentLoop_cons]
    by_cases hq0 : pyStrip para = ""
    · rw [if_pos hq0]
      exact ih _ _ (fun q hq2 => h q (List.mem_cons_of_mem _ hq2))
    · rcases h para (List.mem_cons_self _ _) with hq | hq
      · exact absurd hq hq0
      · rw [if_neg hq0, if_pos hq, if_pos List.isEmpty_nil]
        exact ih _ _ (fun q hq2 => h q (List.mem_cons_of_mem _ hq2))

theorem segmentLoop_heading_heading (rest : List String) (title : Option String)
    (body : List String) (n : Nat) (h1 h2 : String)
    (hh1 : is_likely_heading (pyStrip h1) = true)
    (hh2 : is_likely_heading (pyStrip h2) = true) :
    segmentLoop (h1 :: h2 :: rest) title body n =
      segmentLoop (h2 :: rest) title body n := by
  have hne1 := heading_strip_ne_empty h1 hh1
  have hne2 := heading_strip_ne_empty h2 hh2
  rw [segmentLoop_cons, if_neg hne1, if_pos hh1]
  by_cases hb : body.isEmpty
  · rw [if_pos hb, segmentLoop_cons, if_neg hne2, if_pos hh2, if_pos List.isEmpty_nil,
      segmentLoop_cons, if_neg hne2, if_pos hh2, if_pos hb]
  · rw [if_neg hb, segmentLoop_cons, if_neg hne2, if_pos hh2, if_pos List.isEmpty_nil,
      segmentLoop_cons, if_neg hne2, if_pos hh2, if_neg hb]

/-- C6: on input whose paragraphs contain no heading, the fallback
produces exactly one section titled "Section 1" holding every non-blank
paragraph; non-blank paragraphs before the first heading are accumulated
under the synthesized title and never dropped; and every fallback
section has `level = 0` and no page fields. -/
theorem split_by_paragraphs_no_heading_spec :
    (∀ pages : List String,
      (∀ q ∈ pySplitParas (joinSep "\n\n" pages),
        is_likely_heading (pyStrip q) = false) →
      nonEmptyStripped (pySplitParas (joinSep "\n\n" pages)) ≠ [] →
      split_by_paragraphs pages =
        [{ title := "Section 1", level := 0,
           content := pyStrip (joinSep "\n\n"
             (nonEmptyStripped (pySplitParas (joinSep "\n\n" pages)))),
           start_page := none, end_page := none }]) ∧
    (∀ (pre : List String) (h2 : String) (rest : List String),
      (∀ q ∈ pre, is_likely_heading (pyStrip q) = false) →
      is_likely_heading (pyStrip h2) = true →
      nonEmptyStripped pre ≠ [] →
      (segmentParas (pre ++ h2 :: rest)).head? =
        some { title := "Section 1", level := 0,
               content := pyStrip (joinSep "\n\n" (nonEmptyStripped pre)),
               start_page := none, end_page := none }) ∧
    (∀ pages : List String, ∀ s ∈ split_by_paragraphs pages,
      s.level = 0 ∧ s.start_page = none ∧ s.end_page = none) := by
  have hflush : ∀ body : List String, flushSection none 1 body =
      { title := "Section 1", level := 0,
        content := pyStrip (joinSep "\n\n" body),
        start_page := none, end_page := none } := by
    intro body
    show Section.mk (pyOr none ("Section " ++ toString 1)) 0 _ none none = _
    rw [show pyOr none ("Section " ++ toString 1) = "Section 1" from by decide]
  refine ⟨?_, ?_, split_by_paragraphs_fields⟩
  · intro pages hnh hne
    unfold split_by_paragraphs segmentParas
    have h0 := segmentLoop_skip_nonheadings
      (pySplitParas (joinSep "\n\n" pages)) [] none [] 1 hnh
    rw [List.append_nil] at h0
    rw [h0, List.nil_append, segmentLoop_nil,
      if_neg (by rw [List.isEmpty_iff]; exact hne), hflush]
  · intro pre h2 rest hpre hh2 hne
    unfold segmentParas
    rw [segmentLoop_skip_nonheadings pre (h2 :: rest) none [] 1 hpre,
      List.nil_append, segmentLoop_cons,
      if_neg (heading_strip_ne_empty h2 hh2), if_pos hh2,
      if_neg (by rw [List.isEmpty_iff]; exact hne), hflush]
    rfl

/-- Witness for C6: a single plain body paragraph yields one section
titled "Section 1" carrying that paragraph. -/
theorem split_by_paragraphs_no_heading_spec_witness :
    split_by_paragraphs ["just some plain body text"] =
      [{ title := "Section 1", level := 0,
         content := pyStrip (joinSep "\n\n"
           (nonEmptyStripped (pySplitParas (joinSep "\n\n"
             ["just some plain body text"])))),
         start_page := none, end_page := none }] :=
  split_by_paragraphs_no_heading_spec.1 ["just some plain body text"]
    (by decide) (by decide)

/-- C10: every section produced by the paragraph fallback has non-empty
content; an input consisting solely of blank or heading paragraphs
produces no section at all; and a heading immediately followed by
another heading contributes nothing — only the most recent heading
before a body paragraph titles a section. -/
theorem paragraph_sections_nonempty_content :
    (∀ pages : List String, ∀ s ∈ split_by_paragraphs pages, s.content ≠ "") ∧
    (∀ (paras : List String) (title : Option String) (n : Nat),
      (∀ q ∈ paras, pyStrip q = "" ∨ is_likely_heading (pyStrip q) = true) →
      segmentLoop paras title [] n = []) ∧
    (∀ (rest : List String) (title : Option String) (body : List String)
      (n : Nat) (h1 h2 : String),
      is_likely_heading (pyStrip h1) = true →
      is_likely_heading (pyStrip h2) = true →
      segmentLoop (h1 :: h2 :: rest) title body n =
        segmentLoop (h2 :: rest) title body n) :=
  ⟨fun _ => segmentLoop_content_ne _ none [] 1 (by simp),
   segmentLoop_all_heading,
   segmentLoop_heading_heading⟩

/-- Witness for C10: a heading at end of input yields no section, and a
doubled heading collapses to the single most recent one. -/
theorem paragraph_sections_nonempty_content_witness :
    segmentLoop ["INTRODUCTION"] none [] 1 = [] ∧
      segmentLoop ["METHODS", "INTRODUCTION"] none [] 1 =
        segmentLoop ["INTRODUCTION"] none [] 1 :=
  ⟨paragraph_sections_nonempty_content.2.1 ["INTRODUCTION"] none 1 (by decide),
   paragraph_sections_nonempty_content.2.2 [] none [] 1 "METHODS" "INTRODUCTION"
     (by decide) (by decide)⟩
